import Mathlib

/-!
Verification development for the `sub-extract` repository
(`src/sub-extract.py`).  The Python source is shallowly embedded:

* the filesystem is a set of paths (`FS`, a list of path strings);
* the external tools (`ffprobe`, `ffmpeg`) are oracles packed in `Env`:
  the probe returns a raw response (`ProbeResult`), the two ffmpeg
  conversion stages report success or failure per (video, stream);
* `json.loads` output is modelled by the `JValue` tree; the dynamic
  Python operations used on it (`in`, subscription, iteration, `.get`)
  are modelled with their genuine Python semantics, raising `PyErr`
  (`TypeError` / `KeyError` / `AttributeError`) exactly where CPython
  raises; only `json.JSONDecodeError` is caught by the source, so the
  other errors propagate as `Except.error`;
* `logger.info` / `logger.error` calls that the claims talk about are
  recorded as structured `LogEntry` values (debug chatter is omitted);
* `os.path.exists` / `os.remove` are modelled as total operations on the
  path set (OS-level failures of these primitives are outside the scope
  of the spec, which only treats the external conversion tools as
  fallible).
-/

/-- The filesystem as the set of existing paths. -/
abbrev FS := List String

/-- `os.path.exists`. -/
def os_path_exists (fs : FS) (p : String) : Bool := fs.contains p

/-- `os.remove` (the source always guards it with `os.path.exists`). -/
def os_remove (fs : FS) (p : String) : FS := fs.filter (fun q => q != p)

/-- A successful tool invocation creating (or overwriting) a file at `p`. -/
def fsCreate (fs : FS) (p : String) : FS := if fs.contains p then fs else p :: fs

/-- The guarded-removal idiom `if os.path.exists(p): os.remove(p)` used at
sub-extract.py lines 36-38 (stale output) and lines 72-74 (temp cleanup). -/
def removeIfExists (p : String) (fs : FS) : FS :=
  if os_path_exists fs p then os_remove fs p else fs

/-- The log lines of interest (`logger.info` / `logger.error` emissions the
spec talks about; `logger.debug` noise is not modelled). -/
inductive LogEntry where
  | noSubtitles (language video : String)
  | ffmpegError (stderr : String)
  | summary (processedFiles extractedSubtitles : Nat)
deriving DecidableEq

/-- Python values as returned by `json.loads`. -/
inductive JValue where
  | null
  | bool (b : Bool)
  | num (n : Int)
  | str (s : String)
  | arr (elems : List JValue)
  | obj (fields : List (String × JValue))

/-- Exceptions other than `json.JSONDecodeError` that the dynamic operations
in `get_subtitle_stream_indices` can raise (these are NOT caught there). -/
inductive PyErr where
  | typeError
  | keyError (k : String)
  | attributeError
deriving DecidableEq

/-- The raw outcome of the `ffprobe` subprocess, as observed by the source:
`absent` means `result.stdout` is empty (falsy), `undecodable` means
`json.loads` raises `json.JSONDecodeError`, `parsed v` means it returns `v`. -/
inductive ProbeResult where
  | absent
  | undecodable
  | parsed (v : JValue)

/-- The external-tool oracles.  The `ffprobe` command (line 16) mentions only
the video file, so the probe is keyed by the video path alone; each ffmpeg
stage outcome is keyed by (video path, stream index as passed in the map). -/
structure Env where
  probe : String → ProbeResult
  stage1Ok : String → JValue → Bool
  stage1Stderr : String → JValue → String
  stage2Ok : String → JValue → Bool
  stage2Stderr : String → JValue → String

/-- First-match association lookup in a parsed JSON object (CPython dicts
produced by `json.loads` have unique keys). -/
def lookupField : List (String × JValue) → String → Option JValue
  | [], _ => none
  | (k, v) :: rest, key => if k == key then some v else lookupField rest key

/-- Python `==` between a JSON value and a `str` (cross-type comparison is
`False` in Python). -/
def pyEqStr (v : JValue) (s : String) : Bool :=
  match v with
  | .str t => t == s
  | _ => false

/-- Contiguous-substring test on character lists (Python `key in s` for
strings). -/
def isInfixChars (key : List Char) : List Char → Bool
  | [] => key.isEmpty
  | c :: rest => key.isPrefixOf (c :: rest) || isInfixChars key rest

/-- Python `key in v` for a string key: dict key test, list membership test,
substring test on strings; `TypeError` on the other values. -/
def pyContainsStr (key : String) (v : JValue) : Except PyErr Bool :=
  match v with
  | .obj fields => .ok (fields.any (fun kv => kv.1 == key))
  | .arr elems => .ok (elems.any (fun e => pyEqStr e key))
  | .str s => .ok (isInfixChars key.toList s.toList)
  | _ => .error .typeError

/-- Python `v[key]` for a string key (`KeyError` on a dict miss, `TypeError`
on non-dicts). -/
def pySubscript (v : JValue) (key : String) : Except PyErr JValue :=
  match v with
  | .obj fields =>
    match lookupField fields key with
    | some u => .ok u
    | none => .error (.keyError key)
  | _ => .error .typeError

/-- Python iteration `for x in v` (dicts iterate their keys, strings their
characters; `TypeError` otherwise). -/
def pyIter (v : JValue) : Except PyErr (List JValue) :=
  match v with
  | .arr elems => .ok elems
  | .obj fields => .ok (fields.map (fun kv => JValue.str kv.1))
  | .str s => .ok (s.toList.map (fun c => JValue.str (String.mk [c])))
  | _ => .error .typeError

/-- Python `v.get(key, default)` (`AttributeError` when `v` is not a dict). -/
def pyDictGet (v : JValue) (key : String) (default : JValue) : Except PyErr JValue :=
  match v with
  | .obj fields => .ok ((lookupField fields key).getD default)
  | _ => .error .attributeError

/-- The filter condition of the comprehension at sub-extract.py line 25:
`stream.get("tags", {}).get("language", "") == language`. -/
def streamMatches (language : String) (stream : JValue) : Except PyErr Bool :=
  match pyDictGet stream "tags" (JValue.obj []) with
  | .error e => .error e
  | .ok tags =>
    match pyDictGet tags "language" (JValue.str "") with
    | .error e => .error e
    | .ok tag => .ok (pyEqStr tag language)

/-- The list comprehension at line 25; `stream["index"]` is evaluated only
for streams passing the filter, left to right. -/
def selectIndices (language : String) : List JValue → Except PyErr (List JValue)
  | [] => .ok []
  | stream :: rest =>
    match streamMatches language stream with
    | .error e => .error e
    | .ok true =>
      match pySubscript stream "index" with
      | .error e => .error e
      | .ok idx =>
        match selectIndices language rest with
        | .error e => .error e
        | .ok l => .ok (idx :: l)
    | .ok false => selectIndices language rest

/-- sub-extract.py lines 14-30.  The `try` block catches only
`json.JSONDecodeError` (modelled by `ProbeResult.undecodable`); `TypeError`,
`KeyError` and `AttributeError` raised by the dynamic operations inside the
block propagate to the caller. -/
def get_subtitle_stream_indices (env : Env) (video_file language : String) :
    Except PyErr (List JValue) :=
  match env.probe video_file with
  | .absent => .ok []
  | .undecodable => .ok []
  | .parsed data =>
    match pyContainsStr "streams" data with
    | .error e => .error e
    | .ok false => .ok []
    | .ok true =>
      match pySubscript data "streams" with
      | .error e => .error e
      | .ok streams =>
        match pyIter streams with
        | .error e => .error e
        | .ok elems => selectIndices language elems

/-!
POSIX path helpers, modelling the exact `posixpath` routines the source
uses: `os.path.basename`, `os.path.dirname`, `os.path.splitext` (only its
first component) and `os.path.join` (two arguments).
-/

/-- `os.path.basename`: everything after the last slash. -/
def basenameChars (l : List Char) : List Char :=
  (l.reverse.takeWhile (fun c => c != '/')).reverse

/-- `p[:p.rfind(sep) + 1]`, the head part kept by `posixpath.dirname`. -/
def headPartChars (l : List Char) : List Char :=
  l.take (l.length - (basenameChars l).length)

/-- `os.path.dirname`: the head part, with trailing slashes stripped unless
it consists of slashes only. -/
def dirnameChars (l : List Char) : List Char :=
  let h := headPartChars l
  if h.all (fun c => c == '/') then h
  else (h.reverse.dropWhile (fun c => c == '/')).reverse

/-- Split a character list at the LAST occurrence of `c`; `none` when `c`
does not occur. -/
def splitAtLastChar (c : Char) (l : List Char) : Option (List Char × List Char) :=
  let post := l.reverse.takeWhile (fun x => x != c)
  match l.reverse.dropWhile (fun x => x != c) with
  | [] => none
  | _ :: pre => some (pre.reverse, post.reverse)

/-- `os.path.splitext(m)[0]` for a slash-free `m`: cut at the last dot,
except when every character before that dot is itself a dot (e.g. a
leading-dot name like `.bashrc` keeps its dot). -/
def stemChars (m : List Char) : List Char :=
  match splitAtLastChar '.' m with
  | none => m
  | some (pre, _) => if pre.any (fun c => c != '.') then pre else m

/-- `os.path.join(a, b)` for two components (posixpath semantics): `b` wins
when absolute; otherwise it is appended, inserting a slash unless `a` is
empty or already ends with one. -/
def pathJoinChars (a b : List Char) : List Char :=
  if b.head? = some '/' then b
  else if a = [] then b
  else if a.getLast? = some '/' then a ++ b
  else a ++ '/' :: b

/-- String wrapper for `os.path.basename`. -/
def os_path_basename (s : String) : String := (basenameChars s.toList).asString

/-- String wrapper for `os.path.dirname`. -/
def os_path_dirname (s : String) : String := (dirnameChars s.toList).asString

/-- String wrapper for `os.path.splitext(s)[0]`. -/
def splitextStem (s : String) : String := (stemChars s.toList).asString

/-- String wrapper for `os.path.join`. -/
def os_path_join (a b : String) : String := (pathJoinChars a.toList b.toList).asString

/-!
The Extraction Executor (`convert_subtitles`, sub-extract.py lines 32-49)
and the Multi-Language Orchestrator (`extract_subtitles`, lines 51-76).
-/

/-- Result of one `convert_subtitles` call: the filesystem after the call,
the log lines it emitted, and its boolean return value.  The Python
function catches `ffmpeg.Error` from either stage and returns `False`,
so it never raises to its caller (the only fallible operations in its
`try` block are the two ffmpeg invocations; `os.path.exists`/`os.remove`
are modelled as total). -/
structure ConvertResult where
  fs : FS
  emitted : List LogEntry
  ok : Bool

/-- sub-extract.py lines 32-49.  Deletes a pre-existing output file, runs
stage 1 (container -> .ass at `temp_file`), then stage 2 (.ass -> .srt at
`output_file`); a stage failure is logged with the tool's stderr and turns
into `ok := false`.  Note: no cleanup of `temp_file` happens here. -/
def convert_subtitles (env : Env) (video_file temp_file output_file : String)
    (stream_index : JValue) (fs : FS) : ConvertResult :=
  let fs1 := removeIfExists output_file fs
  if env.stage1Ok video_file stream_index then
    let fs2 := fsCreate fs1 temp_file
    if env.stage2Ok video_file stream_index then
      ⟨fsCreate fs2 output_file, [], true⟩
    else
      ⟨fs2, [LogEntry.ffmpegError (env.stage2Stderr video_file stream_index)], false⟩
  else
    ⟨fs1, [LogEntry.ffmpegError (env.stage1Stderr video_file stream_index)], false⟩

/-- Result of `extract_subtitles` on one file: filesystem, emitted log
lines, and the returned `extracted_count`. -/
structure ExtractResult where
  fs : FS
  emitted : List LogEntry
  count : Nat

/-- `f"_{i}" if len(stream_indices) > 1 else ""` (line 65). -/
def suffixFor (n i : Nat) : String := if 1 < n then "_" ++ toString i else ""

/-- The intermediate-artifact path of task `i` (line 66). -/
def tempPath (output_dir base_name language : String) (n i : Nat) : String :=
  os_path_join output_dir (base_name ++ "_" ++ language ++ suffixFor n i ++ ".ass")

/-- The final-artifact path of task `i` (line 67). -/
def outPath (output_dir base_name language : String) (n i : Nat) : String :=
  os_path_join output_dir (base_name ++ "_" ++ language ++ suffixFor n i ++ ".srt")

/-- The inner per-stream loop of `extract_subtitles` (lines 64-74): for each
enumerated stream index, build the two paths, call `convert_subtitles`,
count on success, then unconditionally delete the temp file if present. -/
def runStreams (env : Env) (video_file output_dir base_name language : String)
    (n : Nat) : List (Nat × JValue) → FS → ExtractResult
  | [], fs => ⟨fs, [], 0⟩
  | (i, idx) :: rest, fs =>
    let tf := tempPath output_dir base_name language n i
    let op := outPath output_dir base_name language n i
    let r := convert_subtitles env video_file tf op idx fs
    let fs2 := removeIfExists tf r.fs
    let res := runStreams env video_file output_dir base_name language n rest fs2
    ⟨res.fs, r.emitted ++ res.emitted, (if r.ok then 1 else 0) + res.count⟩

/-- The per-language loop of `extract_subtitles` (lines 59-74).  A selector
error (uncaught `PyErr` from `get_subtitle_stream_indices`) propagates; an
empty index list logs the skip and continues with the next language. -/
def runLanguages (env : Env) (video_file output_dir base_name : String) :
    List String → FS → Except PyErr ExtractResult
  | [], fs => .ok ⟨fs, [], 0⟩
  | language :: rest, fs =>
    match get_subtitle_stream_indices env video_file language with
    | .error e => .error e
    | .ok [] =>
      match runLanguages env video_file output_dir base_name rest fs with
      | .error e => .error e
      | .ok r => .ok ⟨r.fs, LogEntry.noSubtitles language video_file :: r.emitted, r.count⟩
    | .ok l =>
      let r := runStreams env video_file output_dir base_name language l.length l.enum fs
      match runLanguages env video_file output_dir base_name rest r.fs with
      | .error e => .error e
      | .ok r2 => .ok ⟨r2.fs, r.emitted ++ r2.emitted, r.count + r2.count⟩

/-- Line 53-54: the output directory defaults to the video file's own
directory when not supplied. -/
def resolveDir (output_dir : Option String) (video_file : String) : String :=
  output_dir.getD (os_path_dirname video_file)

/-- sub-extract.py lines 51-76 (`extract_subtitles`). -/
def extract_subtitles (env : Env) (video_file : String) (output_dir : Option String)
    (languages : List String) (fs : FS) : Except PyErr ExtractResult :=
  runLanguages env video_file (resolveDir output_dir video_file)
    (splitextStem (os_path_basename video_file)) languages fs

/-!
The Readiness Detector (`wait_for_complete_copy`, lines 95-103), the Watch
Controller shutdown path (`start_watching`, lines 105-131) and the batch
driver (`__main__`, lines 157-164).
-/

/-- sub-extract.py lines 95-103, the `while True: try os.rename(p, p)` poll
loop.  `renameOk k` is the outcome of the k-th rename attempt; attempt `k`
happens after `k` one-second sleeps (one sleep follows every failed
attempt).  The Python loop has no bound, so the embedding takes an
observation budget `fuel`: `some k` means the loop returned after the k-th
attempt succeeded (having slept `k` seconds), `none` means it was still
looping after `fuel` attempts. -/
def wait_for_complete_copy (renameOk : Nat → Bool) : Nat → Nat → Option Nat
  | 0, _ => none
  | fuel + 1, k => if renameOk k then some k else wait_for_complete_copy renameOk fuel (k + 1)

/-- How one run of `start_watching` ends, as far as interrupt handling and
the summary are concerned. -/
inductive WatchOutcome where
  | running
  | stopped (summaryPrinted : Bool)
  | uncaughtInterrupt (summaryPrinted : Bool)
deriving DecidableEq

/-- Control-flow denotation of `start_watching` (lines 105-131) with respect
to KeyboardInterrupt delivery on the main thread.  The main thread blocks at
a sequence of suspension points: first the `time.sleep(1)` calls inside
`wait_for_complete_copy` issued from the bootstrap scan of pre-existing
files (line 112) - `bootstrapWaits` of them, all OUTSIDE the `try` that
begins at line 120 - then the infinite `time.sleep(1)` loop at lines
122-123 inside that `try`.  `interruptAt = some t` delivers the interrupt at
the t-th suspension point (0-based); `none` means no interrupt ever arrives.
An interrupt during a bootstrap wait propagates out of `start_watching`
uncaught, so `print_summary` (line 131) never runs on that route; an
interrupt in the main loop is caught at line 124 and the handler stops the
observer and prints the summary. -/
def start_watching (bootstrapWaits : Nat) (interruptAt : Option Nat) : WatchOutcome :=
  match interruptAt with
  | none => WatchOutcome.running
  | some t =>
    if t < bootstrapWaits then WatchOutcome.uncaughtInterrupt false
    else WatchOutcome.stopped true

/-- Whether the summary was emitted on the way out (vacuously true for the
never-terminating run, which has no exit). -/
def summaryPrintedOnExit : WatchOutcome → Bool
  | .running => true
  | .stopped b => b
  | .uncaughtInterrupt b => b

/-- Recognises the Run Accountant's summary line. -/
def isSummary : LogEntry → Bool
  | .summary _ _ => true
  | _ => false

/-- The batch loop of `__main__` (lines 157-163): process each file in turn,
accumulating the two counters.  An uncaught error from `extract_subtitles`
aborts the loop (there is no `try` in `__main__`). -/
def processFiles (env : Env) (output : Option String) (languages : List String) :
    List String → FS → Except PyErr (FS × List LogEntry × Nat × Nat)
  | [], fs => .ok (fs, [], 0, 0)
  | f :: rest, fs =>
    match extract_subtitles env f output languages fs with
    | .error e => .error e
    | .ok r =>
      match processFiles env output languages rest r.fs with
      | .error e => .error e
      | .ok (fs2, log2, pc, ec) => .ok (fs2, r.emitted ++ log2, pc + 1, ec + r.count)

/-- Lines 157-164: the batch mode runs the loop and then calls
`print_summary` exactly once. -/
def batchMain (env : Env) (files : List String) (output : Option String)
    (languages : List String) (fs : FS) : Except PyErr (FS × List LogEntry × Nat × Nat) :=
  match processFiles env output languages files fs with
  | .error e => .error e
  | .ok (fs2, log, pc, ec) => .ok (fs2, log ++ [LogEntry.summary pc ec], pc, ec)

/-!
Reference (spec-side) definitions used to state the claims.
-/

/-- Executor success for one task, as reported by `convert_subtitles`:
both external stages succeed. -/
def taskSuccess (env : Env) (v : String) (idx : JValue) : Bool :=
  env.stage1Ok v idx && env.stage2Ok v idx

/-- The selector's result list, with errors flattened to `[]` (used only on
the reference side, under hypotheses that exclude the error case). -/
def selectorIndices (env : Env) (v lang : String) : List JValue :=
  match get_subtitle_stream_indices env v lang with
  | .ok l => l
  | .error _ => []

/-- Claim-side count: per language, the number of selected streams whose
task the Executor completes. -/
def specCount (env : Env) (v : String) (langs : List String) : Nat :=
  (langs.map (fun lang => ((selectorIndices env v lang).filter (taskSuccess env v)).length)).sum

/-- Spec-side naming convention: `outputDir` + `/` + `baseName` + `_` +
`languageCode` + suffix + `.srt`, with the suffix empty for a single
matching stream (N = 1) and `_i` (zero-based ordinal) when N > 1. -/
def specFinalPath (outputDir baseName languageCode : String) (n i : Nat) : String :=
  outputDir ++ "/" ++ baseName ++ "_" ++ languageCode ++
    (if n = 1 then "" else "_" ++ toString i) ++ ".srt"

/-- Spec-side selector: the indices of exactly the probe-reported streams
whose language tag is string-equal to the requested code, in probe order;
streams with no tag never match. -/
def specIndices (language : String) (streams : List JValue) : List JValue :=
  streams.filterMap (fun s =>
    match s with
    | .obj fields =>
      match lookupField fields "tags" with
      | some (.obj t) =>
        match lookupField t "language" with
        | some (.str tag) => if tag = language then lookupField fields "index" else none
        | _ => none
      | _ => none
    | _ => none)

/-- A probe-reported stream entry of the shape the tool documents: an object
whose `index` is a number and whose optional `tags` object carries an
optional string `language`. -/
def wfStream (v : JValue) : Bool :=
  match v with
  | .obj fields =>
    (match lookupField fields "index" with
     | some (.num _) => true
     | _ => false)
    &&
    (match lookupField fields "tags" with
     | none => true
     | some (.obj t) =>
       (match lookupField t "language" with
        | none => true
        | some (.str _) => true
        | _ => false)
     | some _ => false)
  | _ => false

/-- A decoded probe response of the expected shape: a JSON object whose
`streams` field is a list of well-formed stream entries. -/
def expectedShape (v : JValue) : Bool :=
  match v with
  | .obj fields =>
    match lookupField fields "streams" with
    | some (.arr elems) => elems.all wfStream
    | _ => false
  | _ => false

/-- The degenerate probe responses of claim C6: absent, malformed (either
undecodable or decoded to something other than the expected shape), or
lacking the expected data. -/
def badProbe : ProbeResult → Bool
  | .absent => true
  | .undecodable => true
  | .parsed v => !(expectedShape v)

/-- The degenerate responses the source actually handles: absent output,
undecodable output, or a decoded JSON object with no `streams` field. -/
def handledProbe : ProbeResult → Bool
  | .absent => true
  | .undecodable => true
  | .parsed (.obj fields) => !(fields.any (fun kv => kv.1 == "streams"))
  | .parsed _ => false

/-- The two filesystem effects the pipeline performs: a tool writing a file,
and the guarded `os.remove` idiom. -/
inductive FsOp where
  | create (p : String)
  | remove (p : String)

/-- Apply one effect. -/
def applyOp (fs : FS) : FsOp → FS
  | .create p => fsCreate fs p
  | .remove p => removeIfExists p fs

/-- Apply a trace of effects in order. -/
def applyOps (fs : FS) : List FsOp → FS
  | [] => fs
  | op :: ops => applyOps (applyOp fs op) ops

/-- The effect trace of one `convert_subtitles` call followed by the
orchestrator's temp cleanup: remove a stale output, create the temp on
stage-1 success, create the output on stage-2 success, remove the temp. -/
def taskOps (env : Env) (v tf op : String) (idx : JValue) : List FsOp :=
  FsOp.remove op ::
    ((if env.stage1Ok v idx then
        FsOp.create tf :: (if env.stage2Ok v idx then [FsOp.create op] else [])
      else []) ++ [FsOp.remove tf])

/-- The log lines one `convert_subtitles` call emits. -/
def convertEmits (env : Env) (v : String) (idx : JValue) : List LogEntry :=
  if env.stage1Ok v idx then
    if env.stage2Ok v idx then []
    else [LogEntry.ffmpegError (env.stage2Stderr v idx)]
  else [LogEntry.ffmpegError (env.stage1Stderr v idx)]

/-- Effect trace of the per-stream loop. -/
def streamsOps (env : Env) (v od bn lang : String) (n : Nat) :
    List (Nat × JValue) → List FsOp
  | [] => []
  | (i, idx) :: rest =>
    taskOps env v (tempPath od bn lang n i) (outPath od bn lang n i) idx
      ++ streamsOps env v od bn lang n rest

/-- Log lines of the per-stream loop. -/
def streamsEmits (env : Env) (v : String) (pairs : List (Nat × JValue)) : List LogEntry :=
  pairs.flatMap (fun p => convertEmits env v p.2)

/-- Success count of the per-stream loop. -/
def streamsCount (env : Env) (v : String) (pairs : List (Nat × JValue)) : Nat :=
  pairs.countP (fun p => taskSuccess env v p.2)

/-- Effect trace of the per-language loop (selector errors contribute
nothing; the trace is only consulted when the selector raises nowhere). -/
def langOps (env : Env) (v od bn : String) : List String → List FsOp
  | [] => []
  | lang :: rest =>
    (match get_subtitle_stream_indices env v lang with
     | .ok [] => []
     | .ok l => streamsOps env v od bn lang l.length l.enum
     | .error _ => []) ++ langOps env v od bn rest

/-- Log lines of the per-language loop. -/
def langEmits (env : Env) (v : String) : List String → List LogEntry
  | [] => []
  | lang :: rest =>
    (match get_subtitle_stream_indices env v lang with
     | .ok [] => [LogEntry.noSubtitles lang v]
     | .ok l => streamsEmits env v l.enum
     | .error _ => []) ++ langEmits env v rest

/-- Success count of the per-language loop. -/
def langCount (env : Env) (v : String) : List String → Nat
  | [] => 0
  | lang :: rest =>
    (match get_subtitle_stream_indices env v lang with
     | .ok [] => 0
     | .ok l => streamsCount env v l.enum
     | .error _ => 0) + langCount env v rest

/-- Every intermediate-artifact path a run of `extract_subtitles` attempts:
for each language with a non-empty selection of `n` streams, the temp paths
of tasks `0 .. n-1`. -/
def allTempPaths (env : Env) (v od bn : String) : List String → List String
  | [] => []
  | lang :: rest =>
    (match get_subtitle_stream_indices env v lang with
     | .ok [] => []
     | .ok l => (List.range l.length).map (fun i => tempPath od bn lang l.length i)
     | .error _ => []) ++ allTempPaths env v od bn rest

/-- Whether an effect trace mentions path `p` at all. -/
def touches (p : String) : List FsOp → Bool
  | [] => false
  | .create q :: ops => q == p || touches p ops
  | .remove q :: ops => q == p || touches p ops

/-!
Pointwise lemmas about the filesystem model and effect traces.
-/

theorem exists_os_remove (fs : FS) (p q : String) :
    os_path_exists (os_remove fs p) q = (!(q == p) && os_path_exists fs q) := by
  induction fs with
  | nil => by_cases h : q = p <;> simp [os_remove, os_path_exists, h]
  | cons a fs ih =>
    by_cases hap : a = p <;> by_cases hqa : q = a <;>
      simp_all [os_remove, os_path_exists, List.contains_cons]

theorem exists_fsCreate (fs : FS) (p q : String) :
    os_path_exists (fsCreate fs p) q = (q == p || os_path_exists fs q) := by
  by_cases hc : fs.contains p
  · by_cases hqp : q = p <;> simp_all [fsCreate, os_path_exists]
  · by_cases hqp : q = p <;> simp_all [fsCreate, os_path_exists, List.contains_cons]

theorem exists_removeIfExists (fs : FS) (p q : String) :
    os_path_exists (removeIfExists p fs) q = (!(q == p) && os_path_exists fs q) := by
  unfold removeIfExists
  by_cases hp : os_path_exists fs p
  · simp [hp, exists_os_remove]
  · by_cases hqp : q = p <;> simp_all

theorem applyOps_append (fs : FS) (l1 l2 : List FsOp) :
    applyOps fs (l1 ++ l2) = applyOps (applyOps fs l1) l2 := by
  induction l1 generalizing fs with
  | nil => rfl
  | cons op ops ih => simp [applyOps, ih]

theorem applyOps_agree (ops : List FsOp) (fs1 fs2 : FS) (q : String)
    (h : os_path_exists fs1 q = os_path_exists fs2 q) :
    os_path_exists (applyOps fs1 ops) q = os_path_exists (applyOps fs2 ops) q := by
  induction ops generalizing fs1 fs2 with
  | nil => exact h
  | cons op ops ih =>
    refine ih (applyOp fs1 op) (applyOp fs2 op) ?_
    cases op <;> simp [applyOp, exists_fsCreate, exists_removeIfExists, h]

theorem applyOps_untouched (ops : List FsOp) (fs : FS) (q : String)
    (h : touches q ops = false) :
    os_path_exists (applyOps fs ops) q = os_path_exists fs q := by
  induction ops generalizing fs with
  | nil => rfl
  | cons op ops ih =>
    cases op with
    | create p =>
      simp only [touches, Bool.or_eq_false_iff] at h
      rw [applyOps, ih (applyOp fs (FsOp.create p)) h.2]
      have hqp : ¬(q = p) := by
        intro hq; subst hq; simp at h
      simp [applyOp, exists_fsCreate, hqp]
    | remove p =>
      simp only [touches, Bool.or_eq_false_iff] at h
      rw [applyOps, ih (applyOp fs (FsOp.remove p)) h.2]
      have hqp : ¬(q = p) := by
        intro hq; subst hq; simp at h
      simp [applyOp, exists_removeIfExists, hqp]

theorem applyOps_touched (ops : List FsOp) (q : String) (h : touches q ops = true)
    (fs1 fs2 : FS) :
    os_path_exists (applyOps fs1 ops) q = os_path_exists (applyOps fs2 ops) q := by
  induction ops generalizing fs1 fs2 with
  | nil => simp [touches] at h
  | cons op ops ih =>
    by_cases hrest : touches q ops = true
    · exact ih hrest (applyOp fs1 op) (applyOp fs2 op)
    · have hop : (match op with | FsOp.create p => p == q | FsOp.remove p => p == q) = true := by
        cases op <;> simp only [touches, Bool.or_eq_true] at h <;> simp_all
      refine applyOps_agree ops _ _ q ?_
      cases op with
      | create p =>
        have : p = q := by simpa using hop
        subst this
        simp [applyOp, exists_fsCreate]
      | remove p =>
        have : p = q := by simpa using hop
        subst this
        simp [applyOp, exists_removeIfExists]

theorem applyOps_idem (ops : List FsOp) (fs : FS) (q : String) :
    os_path_exists (applyOps (applyOps fs ops) ops) q = os_path_exists (applyOps fs ops) q := by
  by_cases h : touches q ops = true
  · exact applyOps_touched ops q h (applyOps fs ops) fs
  · have h0 : touches q ops = false := by simpa using h
    rw [applyOps_untouched ops (applyOps fs ops) q h0]

/-!
Canonical form of the Executor and the Orchestrator loops.
-/

theorem convert_fs_ops (env : Env) (v tf op : String) (idx : JValue) (fs : FS) :
    removeIfExists tf (convert_subtitles env v tf op idx fs).fs
      = applyOps fs (taskOps env v tf op idx) := by
  rcases h1 : env.stage1Ok v idx <;> rcases h2 : env.stage2Ok v idx <;>
    simp [convert_subtitles, taskOps, applyOps, applyOp, h1, h2]

theorem convert_emitted (env : Env) (v tf op : String) (idx : JValue) (fs : FS) :
    (convert_subtitles env v tf op idx fs).emitted = convertEmits env v idx := by
  rcases h1 : env.stage1Ok v idx <;> rcases h2 : env.stage2Ok v idx <;>
    simp [convert_subtitles, convertEmits, h1, h2]

theorem convert_ok (env : Env) (v tf op : String) (idx : JValue) (fs : FS) :
    (convert_subtitles env v tf op idx fs).ok = taskSuccess env v idx := by
  rcases h1 : env.stage1Ok v idx <;> rcases h2 : env.stage2Ok v idx <;>
    simp [convert_subtitles, taskSuccess, h1, h2]

theorem runStreams_spec (env : Env) (v od bn lang : String) (n : Nat)
    (pairs : List (Nat × JValue)) (fs : FS) :
    runStreams env v od bn lang n pairs fs
      = ⟨applyOps fs (streamsOps env v od bn lang n pairs),
         streamsEmits env v pairs, streamsCount env v pairs⟩ := by
  induction pairs generalizing fs with
  | nil => simp [runStreams, streamsOps, streamsEmits, streamsCount, applyOps]
  | cons head rest ih =>
    obtain ⟨i, idx⟩ := head
    simp only [runStreams, streamsOps, streamsEmits, streamsCount]
    rw [convert_fs_ops, ih, convert_emitted, convert_ok, applyOps_append]
    rcases h : taskSuccess env v idx <;>
      simp [h, streamsCount, streamsEmits, List.countP_cons, Nat.add_comm]

theorem runLanguages_spec (env : Env) (v od bn : String) (langs : List String) (fs : FS)
    (h : ∀ lang ∈ langs, (get_subtitle_stream_indices env v lang).isOk = true) :
    runLanguages env v od bn langs fs
      = .ok ⟨applyOps fs (langOps env v od bn langs),
             langEmits env v langs, langCount env v langs⟩ := by
  induction langs generalizing fs with
  | nil => simp [runLanguages, langOps, langEmits, langCount, applyOps]
  | cons lang rest ih =>
    have hh := h lang (List.mem_cons_self lang rest)
    have hrest : ∀ l ∈ rest, (get_subtitle_stream_indices env v l).isOk = true :=
      fun l hl => h l (List.mem_cons_of_mem lang hl)
    cases hsel : get_subtitle_stream_indices env v lang with
    | error e => rw [hsel] at hh; simp [Except.isOk, Except.toBool] at hh
    | ok l =>
      cases l with
      | nil =>
        simp only [runLanguages, langOps, langEmits, langCount, hsel]
        rw [ih fs hrest]
        simp
      | cons a as =>
        simp only [runLanguages, langOps, langEmits, langCount, hsel]
        rw [runStreams_spec, ih _ hrest, applyOps_append]

theorem extract_subtitles_spec (env : Env) (v : String) (od : Option String)
    (langs : List String) (fs : FS)
    (h : ∀ lang ∈ langs, (get_subtitle_stream_indices env v lang).isOk = true) :
    extract_subtitles env v od langs fs
      = .ok ⟨applyOps fs (langOps env v (resolveDir od v) (splitextStem (os_path_basename v)) langs),
             langEmits env v langs, langCount env v langs⟩ :=
  runLanguages_spec env v (resolveDir od v) (splitextStem (os_path_basename v)) langs fs h

theorem streamsCount_enum (env : Env) (v : String) (l : List JValue) :
    streamsCount env v l.enum = (l.filter (taskSuccess env v)).length := by
  have hmap : l.enum.map Prod.snd = l := List.enum_map_snd l
  calc streamsCount env v l.enum
      = List.countP ((fun x => taskSuccess env v x) ∘ Prod.snd) l.enum := rfl
    _ = List.countP (fun x => taskSuccess env v x) (l.enum.map Prod.snd) :=
        (List.countP_map _ _ _).symm
    _ = (l.filter (taskSuccess env v)).length := by
        rw [hmap, List.countP_eq_length_filter]

theorem langCount_eq_specCount (env : Env) (v : String) (langs : List String) :
    langCount env v langs = specCount env v langs := by
  induction langs with
  | nil => rfl
  | cons lang rest ih =>
    simp only [langCount, specCount, List.map_cons, List.sum_cons]
    rw [ih]
    cases hsel : get_subtitle_stream_indices env v lang with
    | error e => simp [selectorIndices, hsel, specCount]
    | ok l =>
      cases l with
      | nil => simp [selectorIndices, hsel, specCount]
      | cons a as => simp [selectorIndices, hsel, specCount, streamsCount_enum]

theorem skip_logged (env : Env) (v : String) (langs : List String) (lang : String)
    (hmem : lang ∈ langs)
    (hok : (get_subtitle_stream_indices env v lang).isOk = true)
    (hempty : selectorIndices env v lang = []) :
    LogEntry.noSubtitles lang v ∈ langEmits env v langs := by
  induction langs with
  | nil => cases hmem
  | cons head rest ih =>
    rcases List.mem_cons.mp hmem with heq | htail
    · subst heq
      cases hsel : get_subtitle_stream_indices env v lang with
      | error e => rw [hsel] at hok; simp [Except.isOk, Except.toBool] at hok
      | ok l =>
        cases l with
        | nil => simp [langEmits, hsel]
        | cons a as => simp [selectorIndices, hsel] at hempty
    · simp only [langEmits]
      exact List.mem_append_right _ (ih htail)

/-!
Lemmas about the path constructors.
-/

theorem stringEqOfData (a b : String) (h : a.data = b.data) : a = b := by
  cases a; cases b; simp_all

theorem pathJoinChars_normal (a b : List Char) (ha : a ≠ [])
    (hl : a.getLast? ≠ some '/') (hb : b.head? ≠ some '/') :
    pathJoinChars a b = a ++ '/' :: b := by
  unfold pathJoinChars
  rw [if_neg hb, if_neg ha, if_neg hl]

theorem os_path_join_normal (a b : String) (ha : a.toList ≠ [])
    (hl : a.toList.getLast? ≠ some '/') (hb : b.toList.head? ≠ some '/') :
    os_path_join a b = a ++ "/" ++ b := by
  apply stringEqOfData
  show pathJoinChars a.data b.data = ((a ++ "/") ++ b).data
  rw [pathJoinChars_normal a.data b.data ha hl hb]
  rw [String.data_append, String.data_append]
  simp

theorem pathJoinChars_getLast (a b : List Char) (hb : b ≠ []) :
    (pathJoinChars a b).getLast? = b.getLast? := by
  unfold pathJoinChars
  by_cases h1 : b.head? = some '/'
  · rw [if_pos h1]
  · rw [if_neg h1]
    by_cases h2 : a = []
    · rw [if_pos h2]
    · rw [if_neg h2]
      by_cases h3 : a.getLast? = some '/'
      · rw [if_pos h3]
        exact List.getLast?_append_of_ne_nil a hb
      · rw [if_neg h3]
        have hcons : ('/' :: b).getLast? = b.getLast? := by
          cases b with
          | nil => simp at hb
          | cons c cs => exact List.getLast?_cons_cons
        rw [List.getLast?_append_of_ne_nil a (by simp), hcons]

theorem name_data_ass (bn lang sfx : String) :
    (bn ++ "_" ++ lang ++ sfx ++ ".ass").toList
      = (bn ++ "_" ++ lang ++ sfx).data ++ ['.', 'a', 's', 's'] := by
  show (bn ++ "_" ++ lang ++ sfx ++ ".ass").data = _
  rw [String.data_append]

theorem name_data_srt (bn lang sfx : String) :
    (bn ++ "_" ++ lang ++ sfx ++ ".srt").toList
      = (bn ++ "_" ++ lang ++ sfx).data ++ ['.', 's', 'r', 't'] := by
  show (bn ++ "_" ++ lang ++ sfx ++ ".srt").data = _
  rw [String.data_append]

theorem tempPath_getLast (od bn lang : String) (n i : Nat) :
    (tempPath od bn lang n i).toList.getLast? = some 's' := by
  show (pathJoinChars od.toList (bn ++ "_" ++ lang ++ suffixFor n i ++ ".ass").toList).getLast? = _
  rw [name_data_ass, pathJoinChars_getLast _ _ (by simp),
    List.getLast?_append_of_ne_nil _ (by simp)]
  rfl

theorem outPath_getLast (od bn lang : String) (n i : Nat) :
    (outPath od bn lang n i).toList.getLast? = some 't' := by
  show (pathJoinChars od.toList (bn ++ "_" ++ lang ++ suffixFor n i ++ ".srt").toList).getLast? = _
  rw [name_data_srt, pathJoinChars_getLast _ _ (by simp),
    List.getLast?_append_of_ne_nil _ (by simp)]
  rfl

theorem tempPath_ne_outPath (od bn lang od2 bn2 lang2 : String) (n i n2 i2 : Nat) :
    tempPath od bn lang n i ≠ outPath od2 bn2 lang2 n2 i2 := by
  intro h
  have := tempPath_getLast od bn lang n i
  rw [h, outPath_getLast] at this
  simp at this

/-!
The no-leaked-intermediate invariant: after the effect trace of a task, a
stream loop, or a whole language loop, every attempted temp path is absent.
-/

theorem taskOps_clears (env : Env) (v tf op : String) (idx : JValue) (p : String) (fs : FS)
    (hpo : ¬(p = op)) (h : os_path_exists fs p = false ∨ p = tf) :
    os_path_exists (applyOps fs (taskOps env v tf op idx)) p = false := by
  rcases h1 : env.stage1Ok v idx <;> rcases h2 : env.stage2Ok v idx <;>
    by_cases hpt : p = tf <;>
      rcases h with hf | hptf <;>
        simp_all [taskOps, applyOps, applyOp, exists_removeIfExists, exists_fsCreate]

theorem streamsOps_clears (env : Env) (v od bn lang : String) (n : Nat)
    (pairs : List (Nat × JValue)) (p : String) (fs : FS)
    (hs : p.toList.getLast? = some 's')
    (h : os_path_exists fs p = false ∨ ∃ pr ∈ pairs, p = tempPath od bn lang n pr.1) :
    os_path_exists (applyOps fs (streamsOps env v od bn lang n pairs)) p = false := by
  induction pairs generalizing fs with
  | nil =>
    rcases h with hf | ⟨pr, hpr, _⟩
    · exact hf
    · simp at hpr
  | cons head rest ih =>
    obtain ⟨i, idx⟩ := head
    rw [streamsOps, applyOps_append]
    have hpo : ¬(p = outPath od bn lang n i) := by
      intro he
      rw [he, outPath_getLast] at hs
      simp at hs
    rcases h with hf | ⟨pr, hpr, hptemp⟩
    · exact ih _ (Or.inl (taskOps_clears env v _ _ idx p fs hpo (Or.inl hf)))
    · rcases List.mem_cons.mp hpr with heq | htail
      · subst heq
        exact ih _ (Or.inl (taskOps_clears env v _ _ idx p fs hpo (Or.inr hptemp)))
      · exact ih _ (Or.inr ⟨pr, htail, hptemp⟩)

theorem langOps_clears (env : Env) (v od bn : String) (langs : List String) (p : String) (fs : FS)
    (hs : p.toList.getLast? = some 's')
    (h : os_path_exists fs p = false ∨ p ∈ allTempPaths env v od bn langs) :
    os_path_exists (applyOps fs (langOps env v od bn langs)) p = false := by
  induction langs generalizing fs with
  | nil =>
    rcases h with hf | hmem
    · exact hf
    · simp [allTempPaths] at hmem
  | cons lang rest ih =>
    rw [langOps, applyOps_append]
    cases hsel : get_subtitle_stream_indices env v lang with
    | error e =>
      rw [allTempPaths, hsel] at h
      simp only [List.nil_append] at h
      simpa [hsel, applyOps] using ih fs h
    | ok l =>
      cases l with
      | nil =>
        rw [allTempPaths, hsel] at h
        simp only [List.nil_append] at h
        simpa [hsel, applyOps] using ih fs h
      | cons a as =>
        rw [allTempPaths, hsel] at h
        have h2 : os_path_exists fs p = false ∨
            p ∈ (List.range (a :: as).length).map
                (fun i => tempPath od bn lang (a :: as).length i)
              ++ allTempPaths env v od bn rest := h
        simp only [hsel]
        rcases h2 with hf | hmem
        · refine ih _ (Or.inl ?_)
          exact streamsOps_clears env v od bn lang _ _ p fs hs (Or.inl hf)
        · rcases List.mem_append.mp hmem with hleft | hright
          · refine ih _ (Or.inl ?_)
            refine streamsOps_clears env v od bn lang _ _ p fs hs (Or.inr ?_)
            have hmap : (List.range (a :: as).length).map
                (fun i => tempPath od bn lang (a :: as).length i)
                = ((a :: as).enum.map Prod.fst).map
                  (fun i => tempPath od bn lang (a :: as).length i) := by
              rw [List.enum_map_fst]
            rw [hmap, List.map_map] at hleft
            obtain ⟨pr, hpr, hpe⟩ := List.mem_map.mp hleft
            exact ⟨pr, hpr, hpe.symm⟩
          · exact ih _ (Or.inr hright)

theorem mem_allTempPaths_getLast (env : Env) (v od bn : String) (langs : List String)
    (p : String) (h : p ∈ allTempPaths env v od bn langs) :
    p.toList.getLast? = some 's' := by
  induction langs with
  | nil => simp [allTempPaths] at h
  | cons lang rest ih =>
    rw [allTempPaths] at h
    rcases List.mem_append.mp h with hl | hr
    · cases hsel : get_subtitle_stream_indices env v lang with
      | error e => rw [hsel] at hl; simp at hl
      | ok l =>
        cases l with
        | nil => rw [hsel] at hl; simp at hl
        | cons a as =>
          rw [hsel] at hl
          have hl2 : p ∈ (List.range (a :: as).length).map
              (fun i => tempPath od bn lang (a :: as).length i) := hl
          obtain ⟨i, _, hpe⟩ := List.mem_map.mp hl2
          rw [← hpe]
          exact tempPath_getLast od bn lang _ i
    · exact ih hr

/-!
Selector correctness on well-formed probe data.
-/

theorem lookupField_any (fields : List (String × JValue)) (k : String) (u : JValue)
    (h : lookupField fields k = some u) : fields.any (fun kv => kv.1 == k) = true := by
  induction fields with
  | nil => simp [lookupField] at h
  | cons kv rest ih =>
    obtain ⟨k1, v1⟩ := kv
    rw [lookupField] at h
    by_cases hk : k1 == k
    · simp [hk]
    · rw [if_neg hk] at h
      simp [hk, ih h]

theorem selectIndices_wf (language : String) (hlang : ¬(language = ""))
    (streams : List JValue) (hwf : streams.all wfStream = true) :
    selectIndices language streams = .ok (specIndices language streams) := by
  have hlang2 : ¬("" = language) := fun he => hlang he.symm
  induction streams with
  | nil => rfl
  | cons s rest ih =>
    rw [List.all_cons, Bool.and_eq_true] at hwf
    obtain ⟨hws, hwrest⟩ := hwf
    have ihr := ih hwrest
    cases s with
    | null => exact Bool.noConfusion hws
    | bool b => exact Bool.noConfusion hws
    | num n => exact Bool.noConfusion hws
    | str t => exact Bool.noConfusion hws
    | arr elems => exact Bool.noConfusion hws
    | obj fields =>
      simp only [wfStream, Bool.and_eq_true] at hws
      obtain ⟨hidx, htags⟩ := hws
      obtain ⟨k, hif⟩ : ∃ k, lookupField fields "index" = some (JValue.num k) := by
        cases hif : lookupField fields "index" with
        | none => rw [hif] at hidx; exact Bool.noConfusion hidx
        | some u =>
          rw [hif] at hidx
          cases u with
          | num k => exact ⟨k, rfl⟩
          | null => exact Bool.noConfusion hidx
          | bool b => exact Bool.noConfusion hidx
          | str t => exact Bool.noConfusion hidx
          | arr elems => exact Bool.noConfusion hidx
          | obj o => exact Bool.noConfusion hidx
      cases ht : lookupField fields "tags" with
      | none =>
        have hm : streamMatches language (JValue.obj fields) = .ok false := by
          simp [streamMatches, pyDictGet, ht, lookupField, pyEqStr, hlang2]
        have hspec : specIndices language (JValue.obj fields :: rest)
            = specIndices language rest := by
          simp [specIndices, List.filterMap_cons, ht]
        simp only [selectIndices, hm, hspec]
        exact ihr
      | some tv =>
        rw [ht] at htags
        cases tv with
        | null => exact Bool.noConfusion htags
        | bool b => exact Bool.noConfusion htags
        | num n => exact Bool.noConfusion htags
        | str t2 => exact Bool.noConfusion htags
        | arr elems => exact Bool.noConfusion htags
        | obj t =>
          have htags2 : (match lookupField t "language" with
              | none => true
              | some (JValue.str _) => true
              | _ => false) = true := htags
          cases hl : lookupField t "language" with
          | none =>
            have hm : streamMatches language (JValue.obj fields) = .ok false := by
              simp [streamMatches, pyDictGet, ht, hl, pyEqStr, hlang2]
            have hspec : specIndices language (JValue.obj fields :: rest)
                = specIndices language rest := by
              simp [specIndices, List.filterMap_cons, ht, hl]
            simp only [selectIndices, hm, hspec]
            exact ihr
          | some tagv =>
            rw [hl] at htags2
            cases tagv with
            | null => exact Bool.noConfusion htags2
            | bool b => exact Bool.noConfusion htags2
            | num n => exact Bool.noConfusion htags2
            | arr elems => exact Bool.noConfusion htags2
            | obj o => exact Bool.noConfusion htags2
            | str tag =>
              by_cases htag : tag = language
              · have hm : streamMatches language (JValue.obj fields) = .ok true := by
                  simp [streamMatches, pyDictGet, ht, hl, pyEqStr, htag]
                have hspec : specIndices language (JValue.obj fields :: rest)
                    = JValue.num k :: specIndices language rest := by
                  simp [specIndices, List.filterMap_cons, ht, hl, htag, hif]
                simp only [selectIndices, hm, pySubscript, hif, ihr, hspec]
              · have hm : streamMatches language (JValue.obj fields) = .ok false := by
                  simp [streamMatches, pyDictGet, ht, hl, pyEqStr, htag]
                have hspec : specIndices language (JValue.obj fields :: rest)
                    = specIndices language rest := by
                  simp [specIndices, List.filterMap_cons, ht, hl, htag]
                simp only [selectIndices, hm, hspec]
                exact ihr

/-!
The readiness poll loop and the summary accounting.
-/

theorem wait_go (renameOk : Nat → Bool) :
    ∀ fuel k n, wait_for_complete_copy renameOk fuel k = some n
      ↔ (k ≤ n ∧ n < k + fuel ∧ renameOk n = true ∧
          ∀ m, k ≤ m → m < n → renameOk m = false) := by
  intro fuel
  induction fuel with
  | zero =>
    intro k n
    constructor
    · intro h; exact Option.noConfusion h
    · rintro ⟨h1, h2, _, _⟩; omega
  | succ fuel ih =>
    intro k n
    rw [wait_for_complete_copy]
    by_cases hk : renameOk k = true
    · rw [if_pos hk]
      constructor
      · intro h
        have hkn : k = n := by injection h
        subst hkn
        exact ⟨Nat.le_refl k, by omega, hk, fun m h1 h2 => by omega⟩
      · rintro ⟨h1, h2, h3, h4⟩
        rcases Nat.eq_or_lt_of_le h1 with heq | hlt
        · rw [heq]
        · exact absurd hk (by simp [h4 k (Nat.le_refl k) hlt])
    · rw [if_neg hk]
      have hkf : renameOk k = false := Bool.eq_false_iff.mpr hk
      rw [ih (k + 1) n]
      constructor
      · rintro ⟨h1, h2, h3, h4⟩
        refine ⟨by omega, by omega, h3, fun m hm1 hm2 => ?_⟩
        rcases Nat.eq_or_lt_of_le hm1 with heq | hlt
        · rw [← heq]; exact hkf
        · exact h4 m hlt hm2
      · rintro ⟨h1, h2, h3, h4⟩
        have hkn : ¬(k = n) := fun he => hk (he ▸ h3)
        exact ⟨by omega, by omega, h3, fun m hm1 hm2 => h4 m (by omega) hm2⟩

theorem wait_none (renameOk : Nat → Bool) (h : ∀ n, renameOk n = false) :
    ∀ fuel k, wait_for_complete_copy renameOk fuel k = none := by
  intro fuel
  induction fuel with
  | zero => intro k; rfl
  | succ fuel ih =>
    intro k
    rw [wait_for_complete_copy, if_neg (by simp [h k]), ih]

theorem runStreams_no_summary (env : Env) (v od bn lang : String) (n : Nat)
    (pairs : List (Nat × JValue)) (fs : FS) :
    ∀ e ∈ (runStreams env v od bn lang n pairs fs).emitted, isSummary e = false := by
  induction pairs generalizing fs with
  | nil => intro e he; simp [runStreams] at he
  | cons head rest ih =>
    obtain ⟨i, idx⟩ := head
    intro e he
    rw [runStreams] at he
    simp only [List.mem_append] at he
    rcases he with hc | hr
    · rw [convert_emitted] at hc
      unfold convertEmits at hc
      rcases h1 : env.stage1Ok v idx <;> rcases h2 : env.stage2Ok v idx <;>
        rw [h1] at hc <;> simp_all [isSummary]
    · exact ih _ e hr

theorem runLanguages_no_summary (env : Env) (v od bn : String) (langs : List String)
    (fs : FS) (r : ExtractResult) (h : runLanguages env v od bn langs fs = .ok r) :
    ∀ e ∈ r.emitted, isSummary e = false := by
  induction langs generalizing fs r with
  | nil =>
    rw [runLanguages] at h
    injection h with h
    rw [← h]
    intro e he
    simp at he
  | cons lang rest ih =>
    rw [runLanguages] at h
    cases hsel : get_subtitle_stream_indices env v lang with
    | error e2 => rw [hsel] at h; exact Except.noConfusion h
    | ok l =>
      rw [hsel] at h
      cases l with
      | nil =>
        cases hrec : runLanguages env v od bn rest fs with
        | error e2 => rw [hrec] at h; exact Except.noConfusion h
        | ok r2 =>
          rw [hrec] at h
          injection h with h
          rw [← h]
          intro e he
          rcases List.mem_cons.mp he with heq | htail
          · rw [heq]; rfl
          · exact ih fs r2 hrec e htail
      | cons a as =>
        have h3 : (match runLanguages env v od bn rest
              (runStreams env v od bn lang (a :: as).length (a :: as).enum fs).fs with
            | Except.error e => (Except.error e : Except PyErr ExtractResult)
            | Except.ok r2 => Except.ok ⟨r2.fs,
                (runStreams env v od bn lang (a :: as).length (a :: as).enum fs).emitted
                  ++ r2.emitted,
                (runStreams env v od bn lang (a :: as).length (a :: as).enum fs).count
                  + r2.count⟩)
            = Except.ok r := h
        cases hrec : runLanguages env v od bn rest
            (runStreams env v od bn lang (a :: as).length (a :: as).enum fs).fs with
        | error e2 => rw [hrec] at h3; exact Except.noConfusion h3
        | ok r2 =>
          rw [hrec] at h3
          injection h3 with h3
          rw [← h3]
          intro e he
          rcases List.mem_append.mp he with hs | h2
          · exact runStreams_no_summary env v od bn lang _ _ fs e hs
          · exact ih _ r2 hrec e h2

theorem processFiles_no_summary (env : Env) (output : Option String) (langs : List String)
    (files : List String) (fs fs2 : FS) (log : List LogEntry) (pc ec : Nat)
    (h : processFiles env output langs files fs = .ok (fs2, log, pc, ec)) :
    ∀ e ∈ log, isSummary e = false := by
  induction files generalizing fs fs2 log pc ec with
  | nil =>
    rw [processFiles] at h
    injection h with h
    intro e he
    rw [Prod.mk.injEq] at h
    obtain ⟨-, h2⟩ := h
    rw [Prod.mk.injEq] at h2
    rw [← h2.1] at he
    simp at he
  | cons f rest ih =>
    rw [processFiles] at h
    cases hx : extract_subtitles env f output langs fs with
    | error e2 => rw [hx] at h; exact Except.noConfusion h
    | ok r =>
      rw [hx] at h
      have h3 : (match processFiles env output langs rest r.fs with
          | Except.error e => (Except.error e : Except PyErr (FS × List LogEntry × Nat × Nat))
          | Except.ok (fs3, log2, pc2, ec2) =>
            Except.ok (fs3, r.emitted ++ log2, pc2 + 1, ec2 + r.count))
          = Except.ok (fs2, log, pc, ec) := h
      cases hp : processFiles env output langs rest r.fs with
      | error e2 => rw [hp] at h3; exact Except.noConfusion h3
      | ok q =>
        obtain ⟨qfs, qlog, qpc, qec⟩ := q
        rw [hp] at h3
        injection h3 with h3
        rw [Prod.mk.injEq] at h3
        obtain ⟨-, h2⟩ := h3
        rw [Prod.mk.injEq] at h2
        intro e he
        rw [← h2.1] at he
        rcases List.mem_append.mp he with h1 | hq
        · exact runLanguages_no_summary env f _ _ langs fs r hx e h1
        · exact ih r.fs qfs qlog qpc qec hp e hq

theorem batchMain_one_summary (env : Env) (files : List String) (output : Option String)
    (langs : List String) (fs fs2 : FS) (log : List LogEntry) (pc ec : Nat)
    (h : batchMain env files output langs fs = .ok (fs2, log, pc, ec)) :
    (log.filter isSummary).length = 1 := by
  unfold batchMain at h
  cases hp : processFiles env output langs files fs with
  | error e => rw [hp] at h; exact Except.noConfusion h
  | ok q =>
    obtain ⟨qfs, qlog, qpc, qec⟩ := q
    rw [hp] at h
    injection h with h
    rw [Prod.mk.injEq] at h
    obtain ⟨-, h2⟩ := h
    rw [Prod.mk.injEq] at h2
    have hlog : log = qlog ++ [LogEntry.summary qpc qec] := h2.1.symm
    have hnone : qlog.filter isSummary = [] := by
      rw [List.filter_eq_nil_iff]
      intro e he
      simp [processFiles_no_summary env output langs files fs qfs qlog qpc qec hp e he]
    rw [hlog, List.filter_append, hnone]
    rfl

/-!
Small string helpers and concrete environments used by the witnesses.
-/

theorem toList_append_str (a b : String) : (a ++ b).toList = a.toList ++ b.toList :=
  String.data_append a b

theorem toList_append_ne_nil (a b : String) (ha : a.toList ≠ []) : (a ++ b).toList ≠ [] := by
  rw [toList_append_str]
  intro h
  exact ha (List.append_eq_nil.mp h).1

theorem head_append_left (a b : String) (ha : a.toList ≠ []) :
    (a ++ b).toList.head? = a.toList.head? := by
  rw [toList_append_str]
  cases hd : a.toList with
  | nil => exact absurd hd ha
  | cons c cs => simp [hd]

/-- Oracles: probe silent, both ffmpeg stages succeed. -/
def envAllOk : Env :=
  ⟨fun _ => ProbeResult.absent, fun _ _ => true, fun _ _ => "",
   fun _ _ => true, fun _ _ => ""⟩

/-- Oracles: the probe output decodes to the JSON number 5 (valid JSON of an
unexpected shape). -/
def envNumProbe : Env :=
  ⟨fun _ => ProbeResult.parsed (JValue.num 5), fun _ _ => true, fun _ _ => "",
   fun _ _ => true, fun _ _ => ""⟩

/-- Oracles: stage 1 always fails with diagnostic output "boom1". -/
def envStage1Fails : Env :=
  ⟨fun _ => ProbeResult.absent, fun _ _ => false, fun _ _ => "boom1",
   fun _ _ => true, fun _ _ => ""⟩

/-- A probe response with two `eng` subtitle streams (container indices 2
and 4) and one `rus` stream (index 3), in container order. -/
def probeTwoEng : JValue :=
  JValue.obj [("streams", JValue.arr
    [JValue.obj [("index", JValue.num 2),
                 ("tags", JValue.obj [("language", JValue.str "eng")])],
     JValue.obj [("index", JValue.num 3),
                 ("tags", JValue.obj [("language", JValue.str "rus")])],
     JValue.obj [("index", JValue.num 4),
                 ("tags", JValue.obj [("language", JValue.str "eng")])]])]

/-- Oracles: the probe reports `probeTwoEng`, both stages succeed. -/
def envRich : Env :=
  ⟨fun _ => ProbeResult.parsed probeTwoEng, fun _ _ => true, fun _ _ => "",
   fun _ _ => true, fun _ _ => ""⟩

/-!
Claim theorems.
-/

/-- C1 (counterexample): the claim says that when `convert_subtitles`
(extractOne) returns - success or failure - the intermediate `.ass` path no
longer exists, the cleanup running unconditionally inside `convert_subtitles`
itself.  In fact on the fully successful run the function returns `True`
with the temp file still on disk: no cleanup statement exists inside
`convert_subtitles` (sub-extract.py lines 32-49). -/
theorem convert_leaves_temp_behind :
    (convert_subtitles envAllOk "v.mkv" "t.ass" "o.srt" (JValue.num 2) []).ok = true ∧
    os_path_exists (convert_subtitles envAllOk "v.mkv" "t.ass" "o.srt" (JValue.num 2) []).fs
      "t.ass" = true := by
  exact ⟨rfl, rfl⟩

/-- C1 (amended): after `convert_subtitles` returns, the intermediate path
may still exist - it does whenever stage 1 ran - and the unconditional
cleanup lives in the caller `extract_subtitles` (lines 72-74), whose guarded
removal immediately after each invocation leaves the intermediate path
absent regardless of the outcome. -/
theorem temp_cleanup_in_caller (env : Env) (v tf op : String) (idx : JValue) (fs : FS) :
    (env.stage1Ok v idx = true →
      os_path_exists (convert_subtitles env v tf op idx fs).fs tf = true)
    ∧ os_path_exists (removeIfExists tf (convert_subtitles env v tf op idx fs).fs) tf = false := by
  constructor
  · intro h1
    rcases h2 : env.stage2Ok v idx <;>
      simp [convert_subtitles, h1, h2, exists_fsCreate]
  · simp [exists_removeIfExists]

/-- C1 (witness): the amended statement at a concrete input. -/
theorem temp_cleanup_in_caller_witness :
    os_path_exists (convert_subtitles envAllOk "w.mkv" "w.ass" "w.srt" (JValue.num 0) []).fs
        "w.ass" = true
    ∧ os_path_exists (removeIfExists "w.ass"
        (convert_subtitles envAllOk "w.mkv" "w.ass" "w.srt" (JValue.num 0) []).fs)
        "w.ass" = false :=
  ⟨(temp_cleanup_in_caller envAllOk "w.mkv" "w.ass" "w.srt" (JValue.num 0) []).1 rfl,
   (temp_cleanup_in_caller envAllOk "w.mkv" "w.ass" "w.srt" (JValue.num 0) []).2⟩

/-- C2: `extract_subtitles` returns exactly the number of per-stream tasks
whose Executor run reported success; a language with an empty selector
result is logged as a skip, contributes zero, and processing continues
(the run still returns `ok` covering every language). -/
theorem extract_subtitles_counts_successes (env : Env) (v : String) (od : Option String)
    (langs : List String) (fs : FS)
    (h : ∀ lang ∈ langs, (get_subtitle_stream_indices env v lang).isOk = true) :
    ∃ r, extract_subtitles env v od langs fs = .ok r ∧
      r.count = specCount env v langs ∧
      ∀ lang ∈ langs, selectorIndices env v lang = [] →
        LogEntry.noSubtitles lang v ∈ r.emitted := by
  refine ⟨_, extract_subtitles_spec env v od langs fs h, ?_, ?_⟩
  · exact langCount_eq_specCount env v langs
  · intro lang hm he
    exact skip_logged env v langs lang hm (h lang hm) he

/-- C2 (witness): two `eng` streams succeed, `fra` has no streams: the run
returns count 2 and logs the `fra` skip. -/
theorem extract_subtitles_counts_successes_witness :
    ∃ r, extract_subtitles envRich "d/v.mkv" (some "out") ["eng", "fra"] [] = .ok r ∧
      r.count = specCount envRich "d/v.mkv" ["eng", "fra"] ∧
      ∀ lang ∈ ["eng", "fra"], selectorIndices envRich "d/v.mkv" lang = [] →
        LogEntry.noSubtitles lang "d/v.mkv" ∈ r.emitted :=
  extract_subtitles_counts_successes envRich "d/v.mkv" (some "out") ["eng", "fra"] []
    (by decide)

/-- C3: the readiness poll loop returns exactly when a rename attempt
succeeds - at the first successful attempt `n`, after `n` failed attempts
each followed by a one-second sleep - and when every attempt fails it is
still looping after any number of polls (no iteration bound or timeout). -/
theorem wait_for_complete_copy_spec (renameOk : Nat → Bool) :
    (∀ fuel n, wait_for_complete_copy renameOk fuel 0 = some n
      ↔ (n < fuel ∧ renameOk n = true ∧ ∀ m, m < n → renameOk m = false))
    ∧ ((∀ n, renameOk n = false) →
        ∀ fuel, wait_for_complete_copy renameOk fuel 0 = none) := by
  constructor
  · intro fuel n
    rw [wait_go renameOk fuel 0 n]
    constructor
    · rintro ⟨-, h2, h3, h4⟩
      exact ⟨by omega, h3, fun m hm => h4 m (Nat.zero_le m) hm⟩
    · rintro ⟨h2, h3, h4⟩
      exact ⟨Nat.zero_le n, by omega, h3, fun m _ hm => h4 m hm⟩
  · intro h fuel
    exact wait_none renameOk h fuel 0

/-- C3 (witness): with the third rename attempt the first to succeed, the
loop returns attempt index 2 (two sleeps) within any budget above 2. -/
theorem wait_for_complete_copy_spec_witness :
    wait_for_complete_copy (fun k => decide (k = 2)) 5 0 = some 2 :=
  ((wait_for_complete_copy_spec (fun k => decide (k = 2))).1 5 2).mpr (by decide)

theorem toList_append_ne_nil_right (a b : String) (hb : b.toList ≠ []) :
    (a ++ b).toList ≠ [] := by
  rw [toList_append_str]
  intro h
  exact hb (List.append_eq_nil.mp h).2

/-- C4: for a normal output directory (non-empty, not ending in a slash) and
a base name not starting with a slash, the final-artifact path the
orchestrator builds for the i-th task of a language with n matching streams
is exactly `outputDir` + `/` + `baseName` + `_` + `languageCode` + suffix +
`.srt`, the suffix empty when n = 1 and `_i` when n > 1; and when no output
directory is supplied, `extract_subtitles` behaves as if the video file's
own directory had been passed, resolved per file. -/
theorem output_naming_convention (od bn lang : String) (n i : Nat) (env : Env)
    (v : String) (langs : List String) (fs : FS)
    (h1 : od.toList ≠ []) (h2 : od.toList.getLast? ≠ some '/')
    (h3 : bn.toList.head? ≠ some '/') (h4 : 1 ≤ n) :
    outPath od bn lang n i = specFinalPath od bn lang n i
    ∧ extract_subtitles env v none langs fs
        = extract_subtitles env v (some (os_path_dirname v)) langs fs := by
  constructor
  · have hA1h : (bn ++ "_").toList.head? ≠ some '/' := by
      cases hd : bn.toList with
      | nil =>
        rw [toList_append_str, hd]
        decide
      | cons c cs =>
        rw [head_append_left bn "_" (by rw [hd]; simp), hd]
        rw [hd] at h3
        simpa using h3
    have hne0 : ((bn ++ "_")).toList ≠ [] := toList_append_ne_nil_right bn "_" (by decide)
    have hne1 : ((bn ++ "_") ++ lang).toList ≠ [] := toList_append_ne_nil _ _ hne0
    have hne2 : (((bn ++ "_") ++ lang) ++ suffixFor n i).toList ≠ [] :=
      toList_append_ne_nil _ _ hne1
    have hname : (bn ++ "_" ++ lang ++ suffixFor n i ++ ".srt").toList.head? ≠ some '/' := by
      rw [head_append_left _ ".srt" hne2, head_append_left _ (suffixFor n i) hne1,
        head_append_left _ lang hne0]
      exact hA1h
    have hsfx : suffixFor n i = (if n = 1 then "" else "_" ++ toString i) := by
      rcases n with _ | _ | m
      · exact absurd h4 (by omega)
      · rw [suffixFor, if_neg (by omega), if_pos rfl]
      · rw [suffixFor, if_pos (by omega), if_neg (by omega)]
    rw [outPath, os_path_join_normal od (bn ++ "_" ++ lang ++ suffixFor n i ++ ".srt")
      h1 h2 hname]
    apply stringEqOfData
    simp [specFinalPath, String.data_append, List.append_assoc, hsfx]
  · rfl

/-- C4 (witness): for output directory `out`, base name `movie`, language
`eng`, two streams, task 1, the path is `out/movie_eng_1.srt`; and
omitting the output directory equals passing the video's own directory. -/
theorem output_naming_convention_witness :
    outPath "out" "movie" "eng" 2 1 = specFinalPath "out" "movie" "eng" 2 1
    ∧ extract_subtitles envAllOk "d/v.mkv" none ["eng"] []
        = extract_subtitles envAllOk "d/v.mkv" (some (os_path_dirname "d/v.mkv")) ["eng"] [] :=
  output_naming_convention "out" "movie" "eng" 2 1 envAllOk "d/v.mkv" ["eng"] []
    (by decide) (by decide) (by decide) (by decide)

/-- C5: if either conversion stage fails, `convert_subtitles` reports
`False` and logs the failing tool's diagnostic output; in the embedding the
function is total (it catches `ffmpeg.Error` from the only fallible
operations in its `try` block), so nothing propagates past its boundary. -/
theorem convert_subtitles_failure_no_raise (env : Env) (v tf op : String)
    (idx : JValue) (fs : FS)
    (h : env.stage1Ok v idx = false ∨ env.stage2Ok v idx = false) :
    (convert_subtitles env v tf op idx fs).ok = false ∧
    LogEntry.ffmpegError
        (if env.stage1Ok v idx then env.stage2Stderr v idx else env.stage1Stderr v idx)
      ∈ (convert_subtitles env v tf op idx fs).emitted := by
  rcases h1 : env.stage1Ok v idx <;> rcases h2 : env.stage2Ok v idx <;>
    simp_all [convert_subtitles]

/-- C5 (witness): stage 1 fails with diagnostic "boom1"; the call reports
failure and logs it. -/
theorem convert_subtitles_failure_no_raise_witness :
    (convert_subtitles envStage1Fails "v.mkv" "t.ass" "o.srt" (JValue.num 1) []).ok = false ∧
    LogEntry.ffmpegError "boom1"
      ∈ (convert_subtitles envStage1Fails "v.mkv" "t.ass" "o.srt" (JValue.num 1) []).emitted := by
  have h := convert_subtitles_failure_no_raise envStage1Fails "v.mkv" "t.ass" "o.srt"
    (JValue.num 1) [] (Or.inl rfl)
  exact ⟨h.1, by simpa using h.2⟩

/-- C6 (counterexample): the probe output `5` is valid JSON of an unexpected
shape - a malformed response in the claim's sense (`badProbe` holds) - yet
`get_subtitle_stream_indices` does not return `[]`: the membership test
`"streams" in data` raises an uncaught `TypeError` that propagates to the
caller, refuting "returns an empty list and does not raise". -/
theorem selector_raises_on_nonobject_probe :
    badProbe (envNumProbe.probe "v.mkv") = true ∧
    get_subtitle_stream_indices envNumProbe "v.mkv" "eng" = .error PyErr.typeError := by
  exact ⟨rfl, rfl⟩

/-- C6 (amended): the degenerate probe responses the source handles by
returning `[]` without raising are exactly: empty stdout, stdout that fails
to decode as JSON, and stdout decoding to a JSON object with no `streams`
field.  Other decoded shapes can raise `TypeError`/`KeyError`/
`AttributeError`, which the function does not catch. -/
theorem selector_empty_on_handled_probe (env : Env) (v lang : String)
    (h : handledProbe (env.probe v) = true) :
    get_subtitle_stream_indices env v lang = .ok [] := by
  rw [get_subtitle_stream_indices]
  cases hp : env.probe v with
  | absent => rfl
  | undecodable => rfl
  | parsed data =>
    rw [hp] at h
    cases data with
    | obj fields =>
      have h2 : (fields.any (fun kv => kv.1 == "streams")) = false := by
        have h3 : (!(fields.any (fun kv => kv.1 == "streams"))) = true := h
        simpa using h3
      simp [pyContainsStr, h2]
    | null => exact Bool.noConfusion h
    | bool b => exact Bool.noConfusion h
    | num n => exact Bool.noConfusion h
    | str s => exact Bool.noConfusion h
    | arr elems => exact Bool.noConfusion h

/-- C6 (witness): a probe whose stdout is empty yields `[]` without error. -/
theorem selector_empty_on_handled_probe_witness :
    get_subtitle_stream_indices envAllOk "v.mkv" "eng" = .ok [] :=
  selector_empty_on_handled_probe envAllOk "v.mkv" "eng" rfl

/-- C7: on a well-formed probe response and a non-empty requested code, the
selector returns exactly the container indices of the streams whose language
tag is string-equal to the code, in probe-reported order; untagged streams
never match. -/
theorem selector_filters_by_language (env : Env) (v lang : String)
    (fields : List (String × JValue)) (streams : List JValue)
    (hp : env.probe v = ProbeResult.parsed (JValue.obj fields))
    (hstreams : lookupField fields "streams" = some (JValue.arr streams))
    (hwf : streams.all wfStream = true) (hlang : ¬(lang = "")) :
    get_subtitle_stream_indices env v lang = .ok (specIndices lang streams) := by
  have hc : pyContainsStr "streams" (JValue.obj fields) = .ok true := by
    simp [pyContainsStr, lookupField_any fields "streams" _ hstreams]
  simp only [get_subtitle_stream_indices, hp, hc, pySubscript, hstreams, pyIter]
  exact selectIndices_wf lang hlang streams hwf

/-- C7 (witness): on the two-eng/one-rus probe, requesting `eng` returns
indices 2 and 4 in container order. -/
theorem selector_filters_by_language_witness :
    get_subtitle_stream_indices envRich "v.mkv" "eng"
      = .ok (specIndices "eng"
          [JValue.obj [("index", JValue.num 2),
                       ("tags", JValue.obj [("language", JValue.str "eng")])],
           JValue.obj [("index", JValue.num 3),
                       ("tags", JValue.obj [("language", JValue.str "rus")])],
           JValue.obj [("index", JValue.num 4),
                       ("tags", JValue.obj [("language", JValue.str "eng")])]]) :=
  selector_filters_by_language envRich "v.mkv" "eng" _ _ rfl rfl (by decide) (by decide)

/-- C8 (counterexample): the claim says the summary is guaranteed on every
exit route of watch mode, including cancellation during any wait.  With one
pre-existing file whose readiness wait blocks, an interrupt delivered at the
very first suspension point hits `wait_for_complete_copy` at line 112,
outside the `try` of lines 120-131: `start_watching` terminates by an
uncaught KeyboardInterrupt and `print_summary` never runs. -/
theorem interrupt_in_bootstrap_skips_summary :
    start_watching 1 (some 0) ≠ WatchOutcome.running ∧
    summaryPrintedOnExit (start_watching 1 (some 0)) = false := by
  exact ⟨by decide, rfl⟩

/-- C8 (amended): the summary is emitted exactly once per terminating run on
the routes that do emit it: in watch mode it runs exactly when the interrupt
arrives at or after the main-loop suspension points (inside the `try`), and
NOT when the interrupt lands during a Bootstrapping-phase readiness wait;
in batch mode a completed run appends exactly one summary line. -/
theorem summary_emission (bw t : Nat) (env : Env) (files : List String)
    (output : Option String) (langs : List String) (fs : FS) :
    summaryPrintedOnExit (start_watching bw (some t)) = decide (bw ≤ t)
    ∧ (start_watching bw (some t) = WatchOutcome.uncaughtInterrupt false ↔ t < bw)
    ∧ (∀ fs2 log pc ec, batchMain env files output langs fs = .ok (fs2, log, pc, ec) →
        (log.filter isSummary).length = 1) := by
  refine ⟨?_, ?_, ?_⟩
  · by_cases h : t < bw
    · rw [start_watching, if_pos h]
      have h2 : ¬(bw ≤ t) := by omega
      simp [summaryPrintedOnExit, h2]
    · rw [start_watching, if_neg h]
      have h2 : bw ≤ t := by omega
      simp [summaryPrintedOnExit, h2]
  · by_cases h : t < bw
    · rw [start_watching, if_pos h]
      simp [h]
    · rw [start_watching, if_neg h]
      simp [h]
  · intro fs2 log pc ec hb
    exact batchMain_one_summary env files output langs fs fs2 log pc ec hb

/-- C8 (witness): the amended statement at concrete inputs - an interrupt at
suspension point 3 past a single bootstrap wait prints the summary, and a
one-file batch run (no subtitle streams found) logs exactly one summary. -/
theorem summary_emission_witness :
    summaryPrintedOnExit (start_watching 1 (some 3)) = decide ((1 : Nat) ≤ 3)
    ∧ (([LogEntry.noSubtitles "eng" "v.mkv",
         LogEntry.summary 1 0].filter isSummary).length = 1) :=
  ⟨(summary_emission 1 3 envAllOk ["v.mkv"] none ["eng"] []).1,
   (summary_emission 1 3 envAllOk ["v.mkv"] none ["eng"] []).2.2 []
     [LogEntry.noSubtitles "eng" "v.mkv", LogEntry.summary 1 0] 1 0 rfl⟩

/-- C9: re-running `extract_subtitles` with the same inputs over the
filesystem the first run produced succeeds, returns the same count, and
leaves the same set of files: every stale file at a task's final path is
removed before the tool writes it again, so the second run overwrites
rather than erroring or duplicating. -/
theorem extract_subtitles_idempotent (env : Env) (v : String) (od : Option String)
    (langs : List String) (fs : FS)
    (h : ∀ lang ∈ langs, (get_subtitle_stream_indices env v lang).isOk = true) :
    ∃ r1 r2, extract_subtitles env v od langs fs = .ok r1 ∧
      extract_subtitles env v od langs r1.fs = .ok r2 ∧
      r2.count = r1.count ∧
      ∀ p, os_path_exists r2.fs p = os_path_exists r1.fs p := by
  refine ⟨_, _, extract_subtitles_spec env v od langs fs h,
    extract_subtitles_spec env v od langs _ h, rfl, ?_⟩
  intro p
  exact applyOps_idem _ fs p

/-- C9 (witness): the idempotence statement at a concrete input with two
`eng` streams and a pre-existing stale output. -/
theorem extract_subtitles_idempotent_witness :
    ∃ r1 r2, extract_subtitles envRich "d/v.mkv" (some "out") ["eng"]
        ["out/v_eng_0.srt"] = .ok r1 ∧
      extract_subtitles envRich "d/v.mkv" (some "out") ["eng"] r1.fs = .ok r2 ∧
      r2.count = r1.count ∧
      ∀ p, os_path_exists r2.fs p = os_path_exists r1.fs p :=
  extract_subtitles_idempotent envRich "d/v.mkv" (some "out") ["eng"]
    ["out/v_eng_0.srt"] (by decide)

/-- C10: whenever `extract_subtitles` returns normally, none of the
intermediate `.ass` paths of the tasks it attempted exists on disk: the
orchestrator's guarded removal after every Executor invocation (lines
72-74) restores the no-intermediate-artifact invariant regardless of
whether the conversion succeeded, failed, or left the file behind. -/
theorem no_temp_after_extract_subtitles (env : Env) (v : String) (od : Option String)
    (langs : List String) (fs : FS)
    (h : ∀ lang ∈ langs, (get_subtitle_stream_indices env v lang).isOk = true) :
    ∃ r, extract_subtitles env v od langs fs = .ok r ∧
      ∀ t ∈ allTempPaths env v (resolveDir od v)
          (splitextStem (os_path_basename v)) langs,
        os_path_exists r.fs t = false := by
  refine ⟨_, extract_subtitles_spec env v od langs fs h, ?_⟩
  intro t ht
  exact langOps_clears env v _ _ langs t fs
    (mem_allTempPaths_getLast env v _ _ langs t ht) (Or.inr ht)

/-- C10 (witness): the invariant at a concrete input (two `eng` tasks whose
temp files were created and then removed). -/
theorem no_temp_after_extract_subtitles_witness :
    ∃ r, extract_subtitles envRich "d/v.mkv" (some "out") ["eng"] [] = .ok r ∧
      ∀ t ∈ allTempPaths envRich "d/v.mkv" (resolveDir (some "out") "d/v.mkv")
          (splitextStem (os_path_basename "d/v.mkv")) ["eng"],
        os_path_exists r.fs t = false :=
  no_temp_after_extract_subtitles envRich "d/v.mkv" (some "out") ["eng"] [] (by decide)
